import Mathlib

/-!
Verification of the batch-orchestration pipeline of the parallex repository
(src/parallex/parallex.py and src/parallex/ai/uploader.py) against its
natural-language specification.

Shallow embedding conventions:
- A page artifact handed to the packer is represented by the byte size of its
  serialized jsonl line (the bytes written by `json.dumps(jsonl) + "\n"`).
- Fallible Python calls are embedded as `Except`-returning functions; a raised
  exception is an `Except.error`.
- The asyncio primitives used by the pipeline (Semaphore, gather) are embedded
  as an explicit transition system and an explicit completion-order model.
-/

namespace Parallex

/-! ## Batch packer (src/parallex/ai/uploader.py, upload_images_for_processing)

The loop keeps a current jsonl file and a list of already-uploaded batch files.
Before appending an image line, if the current file exists and its size exceeds
MAX_FILE_SIZE, the current file is uploaded (sealed) and a fresh file is
started; the line is then appended to the current file. After the loop the
current file is always uploaded. We model a unit as the list of the byte sizes
of the lines it holds, newest last. -/

/-- Embedding of one iteration of the `for image_file in image_files` loop:
`acc.1` is the list of sealed units, `acc.2` the current unit, and `s` the
serialized size of the incoming line. The test mirrors
`os.path.exists(upload_file_location) and os.path.getsize(upload_file_location) > MAX_FILE_SIZE`:
a fresh current file does not yet exist on disk, so existence is
current-unit nonemptiness. -/
def packStep (maxSize : Nat) (acc : List (List Nat) × List Nat) (s : Nat) :
    List (List Nat) × List Nat :=
  if acc.2 ≠ [] ∧ maxSize < acc.2.sum then
    (acc.1 ++ [acc.2], [s])
  else
    (acc.1, acc.2 ++ [s])

/-- Embedding of the whole packing loop of `upload_images_for_processing`,
including the unconditional final `_create_batch_file` call that seals the
last current unit. -/
def pack (maxSize : Nat) (lineSizes : List Nat) : List (List Nat) :=
  let acc := lineSizes.foldl (packStep maxSize) ([], [])
  acc.1 ++ [acc.2]

/-- Python errors relevant to the embedded fragment. `image_files[0]` on an
empty list raises IndexError. -/
inductive PyErr where
  | indexError
  deriving DecidableEq

/-- Embedding of `upload_images_for_processing`. The first component lists the
units passed to `client.upload` (via `_create_batch_file`), in call order; the
second is the returned list of batch files (a batch file is identified with
its unit) or the raised exception. On an empty input the very first statement
`trace_id = image_files[0].trace_id` raises IndexError, before any file is
written or any remote call is made. -/
def uploadImagesForProcessing (maxSize : Nat) (lineSizes : List Nat) :
    List (List Nat) × Except PyErr (List (List Nat)) :=
  match lineSizes with
  | [] => ([], Except.error PyErr.indexError)
  | _ :: _ => (pack maxSize lineSizes, Except.ok (pack maxSize lineSizes))

/-- Every strict leading part of the unit (everything appended before some
later line) has total size at most `maxSize`. -/
def initSumsLE (maxSize : Nat) (u : List Nat) : Prop :=
  ∀ k, k < u.length → (u.take k).sum ≤ maxSize

/-- Loop invariant of the packing fold: every sealed unit is nonempty and was
only ever appended to while at or under the ceiling, and the same size
property holds for the current unit. -/
def PackInv (maxSize : Nat) (acc : List (List Nat) × List Nat) : Prop :=
  (∀ u ∈ acc.1, u ≠ [] ∧ initSumsLE maxSize u) ∧ initSumsLE maxSize acc.2

theorem initSumsLE_nil (m : Nat) : initSumsLE m [] := by
  intro k hk
  simp at hk

theorem initSumsLE_single (m s : Nat) : initSumsLE m [s] := by
  intro k hk
  have : k = 0 := by simpa [Nat.lt_one_iff] using hk
  simp [this]

theorem initSumsLE_append (m s : Nat) (u : List Nat) (h : initSumsLE m u)
    (hsum : u.sum ≤ m) : initSumsLE m (u ++ [s]) := by
  intro k hk
  have hk' : k ≤ u.length := by
    simpa [Nat.lt_succ_iff] using hk
  rw [List.take_append_of_le_length hk']
  rcases Nat.lt_or_ge k u.length with hlt | hge
  · exact h k hlt
  · have : k = u.length := le_antisymm hk' hge
    subst this
    simpa using hsum

theorem packStep_inv (m : Nat) (acc : List (List Nat) × List Nat) (s : Nat)
    (h : PackInv m acc) : PackInv m (packStep m acc s) := by
  obtain ⟨hsealed, hcur⟩ := h
  unfold packStep
  split
  · rename_i hcond
    refine ⟨?_, initSumsLE_single m s⟩
    intro u hu
    rcases List.mem_append.mp hu with hu | hu
    · exact hsealed u hu
    · have : u = acc.2 := by simpa using hu
      subst this
      exact ⟨hcond.1, hcur⟩
  · rename_i hcond
    refine ⟨hsealed, ?_⟩
    apply initSumsLE_append m s acc.2 hcur
    by_cases hnil : acc.2 = []
    · simp [hnil]
    · have := not_and.mp hcond hnil
      omega

theorem packStep_flatten (m : Nat) (acc : List (List Nat) × List Nat) (s : Nat) :
    (packStep m acc s).1.flatten ++ (packStep m acc s).2
      = acc.1.flatten ++ acc.2 ++ [s] := by
  unfold packStep
  split
  · simp
  · simp

theorem packStep_snd_ne_nil (m : Nat) (acc : List (List Nat) × List Nat) (s : Nat) :
    (packStep m acc s).2 ≠ [] := by
  unfold packStep
  split
  · simp
  · simp

theorem foldl_packStep_inv (m : Nat) (lines : List Nat) :
    ∀ acc, PackInv m acc → PackInv m (lines.foldl (packStep m) acc) := by
  induction lines with
  | nil => intro acc h; simpa using h
  | cons x xs ih =>
      intro acc h
      simpa [List.foldl_cons] using ih (packStep m acc x) (packStep_inv m acc x h)

theorem foldl_packStep_flatten (m : Nat) (lines : List Nat) :
    ∀ acc, (lines.foldl (packStep m) acc).1.flatten ++ (lines.foldl (packStep m) acc).2
      = acc.1.flatten ++ acc.2 ++ lines := by
  induction lines with
  | nil => intro acc; simp
  | cons x xs ih =>
      intro acc
      rw [List.foldl_cons, ih (packStep m acc x), packStep_flatten m acc x]
      simp

theorem foldl_packStep_snd_ne_nil (m : Nat) (lines : List Nat) :
    ∀ acc : List (List Nat) × List Nat, acc.2 ≠ [] ∨ lines ≠ [] →
      (lines.foldl (packStep m) acc).2 ≠ [] := by
  induction lines with
  | nil =>
      intro acc h
      rcases h with h | h
      · simpa using h
      · simp at h
  | cons x xs ih =>
      intro acc _
      rw [List.foldl_cons]
      exact ih (packStep m acc x) (Or.inl (packStep_snd_ne_nil m acc x))

theorem pack_units_initSumsLE (m : Nat) (lines : List Nat) :
    ∀ u ∈ pack m lines, initSumsLE m u := by
  intro u hu
  have hinv : PackInv m (lines.foldl (packStep m) ([], [])) :=
    foldl_packStep_inv m lines ([], []) ⟨by simp, initSumsLE_nil m⟩
  unfold pack at hu
  rcases List.mem_append.mp hu with hu | hu
  · exact (hinv.1 u hu).2
  · have : u = (lines.foldl (packStep m) ([], [])).2 := by simpa using hu
    subst this
    exact hinv.2

theorem pack_units_ne_nil (m : Nat) (lines : List Nat) (hlines : lines ≠ []) :
    ∀ u ∈ pack m lines, u ≠ [] := by
  intro u hu
  have hinv : PackInv m (lines.foldl (packStep m) ([], [])) :=
    foldl_packStep_inv m lines ([], []) ⟨by simp, initSumsLE_nil m⟩
  unfold pack at hu
  rcases List.mem_append.mp hu with hu | hu
  · exact (hinv.1 u hu).1
  · have : u = (lines.foldl (packStep m) ([], [])).2 := by simpa using hu
    subst this
    exact foldl_packStep_snd_ne_nil m lines ([], []) (Or.inr hlines)

theorem pack_flatten (m : Nat) (lines : List Nat) :
    (pack m lines).flatten = lines := by
  unfold pack
  have := foldl_packStep_flatten m lines ([], [])
  simp only [List.flatten_nil, List.nil_append] at this
  simp [this]

theorem pack_dropLast_sum_le (m : Nat) (lines : List Nat) :
    ∀ u ∈ pack m lines, u.dropLast.sum ≤ m := by
  intro u hu
  have hins := pack_units_initSumsLE m lines u hu
  rcases eq_or_ne u [] with h | h
  · simp [h]
  · have hlen : 0 < u.length := List.length_pos.mpr h
    have : u.dropLast = u.take (u.length - 1) := List.dropLast_eq_take u
    rw [this]
    exact hins (u.length - 1) (by omega)

/-- C4: for every input sequence of artifacts and every ceiling, each produced
upload unit is nonempty and its byte size immediately before its last append
(the total size of all its lines but the last) was at most the ceiling: the
current unit is sealed and a new one started only when its existing size
already exceeds the ceiling. -/
theorem upload_unit_size_before_last_append_le (m : Nat) (lines : List Nat)
    (hlines : lines ≠ []) :
    ∀ u ∈ pack m lines, u ≠ [] ∧ u.dropLast.sum ≤ m :=
  fun u hu =>
    ⟨pack_units_ne_nil m lines hlines u hu, pack_dropLast_sum_le m lines u hu⟩

theorem upload_unit_size_before_last_append_le_witness :
    [5, 20] ≠ ([] : List Nat) ∧ ([5, 20] : List Nat).dropLast.sum ≤ 10 :=
  upload_unit_size_before_last_append_le 10 [5, 20, 3] (by decide) [5, 20]
    (by decide)

/-- C5 counterexample: with ceiling 10 and line sizes [5, 20], the oversized
20-byte artifact lands in the produced unit [5, 20] together with the earlier
5-byte artifact, so the unit containing an oversized artifact is not always a
singleton. -/
theorem oversized_artifact_shares_unit :
    [5, 20] ∈ pack 10 [5, 20] ∧ 20 ∈ ([5, 20] : List Nat) ∧ 10 < 20 ∧
      ([5, 20] : List Nat) ≠ [20] := by decide

/-- C5 amended: an artifact whose serialized line exceeds the ceiling is always
the last line of its unit; consequently when it is the first line of its unit
(in particular when it is the only input artifact) that unit is a singleton. -/
theorem oversized_artifact_ends_unit (m : Nat) (lines : List Nat)
    (u : List Nat) (hu : u ∈ pack m lines) (i : Nat) (hi : i < u.length)
    (hbig : m < u.get ⟨i, hi⟩) :
    i + 1 = u.length ∧ (i = 0 → u.length = 1) := by
  have hins := pack_units_initSumsLE m lines u hu
  have hmain : i + 1 = u.length := by
    by_contra hne
    have hlt : i + 1 < u.length := by omega
    have hle := hins (i + 1) hlt
    have hsum : (u.take (i + 1)).sum = (u.take i).sum + u.get ⟨i, hi⟩ := by
      simpa using List.sum_take_succ u i hi
    omega
  exact ⟨hmain, fun _ => by omega⟩

theorem oversized_artifact_ends_unit_witness :
    0 + 1 = ([20] : List Nat).length ∧ (0 = 0 → ([20] : List Nat).length = 1) :=
  oversized_artifact_ends_unit 10 [20] [20] (by decide) 0 (by decide) (by decide)

/-- C6 counterexample: with ceiling 10 and line sizes [6, 20], the packer
produces the unit [6, 20] whose final size 26 exceeds the ceiling although the
unit holds two artifacts, not a single oversized one. -/
theorem unit_final_size_exceeds_max :
    [6, 20] ∈ pack 10 [6, 20] ∧ 10 < ([6, 20] : List Nat).sum ∧
      ([6, 20] : List Nat).length ≠ 1 := by decide

/-- C6 amended: the produced units concatenate back to exactly the input
sequence (no artifact is split, dropped or duplicated), and no unit exceeds
the configured maximum by more than the serialized size of its last
artifact. -/
theorem unit_size_bounded_by_max_plus_last (m : Nat) (lines : List Nat) :
    (pack m lines).flatten = lines ∧
      ∀ u ∈ pack m lines, u.sum ≤ m + u.getLastD 0 := by
  refine ⟨pack_flatten m lines, ?_⟩
  intro u hu
  rcases eq_or_ne u [] with h | h
  · simp [h]
  · have hdrop := pack_dropLast_sum_le m lines u hu
    have hlast : u.getLastD 0 = u.getLast h := by
      rw [List.getLastD_eq_getLast?, List.getLast?_eq_getLast u h]
      rfl
    have hsum : u.dropLast.sum + u.getLast h = u.sum := by
      conv_rhs => rw [← List.dropLast_append_getLast h]
      simp
    omega

theorem unit_size_bounded_by_max_plus_last_witness :
    ([6, 20] : List Nat).sum ≤ 10 + ([6, 20] : List Nat).getLastD 0 :=
  (unit_size_bounded_by_max_plus_last 10 [6, 20]).2 [6, 20] (by decide)

/-- C10: called with an empty list of image files, the upload step fails
immediately with IndexError (raised by the subscript `image_files[0]` before
any file is written or any remote call is made) rather than returning an empty
list of batch files. -/
theorem upload_empty_input_index_error (m : Nat) :
    uploadImagesForProcessing m [] = ([], Except.error PyErr.indexError) ∧
      (uploadImagesForProcessing m []).2 ≠ Except.ok [] := by
  refine ⟨rfl, fun h => ?_⟩
  simp [uploadImagesForProcessing] at h

/-! ## Result aggregation (src/parallex/parallex.py, _execute, lines 95-105)

The pipeline flattens the per-batch page groups and sorts by
`lambda x: x.page_number` with Python's `sorted`, a stable ascending sort.
We embed the sort as insertion sort, which is also stable; stable sorts with
the same key agree pointwise, so this is observationally the same list. -/

/-- Embedding of the PageResponse records returned per batch by
process_output; only the page_number matters to aggregation, content stands
for the rest of the record. -/
structure PageResponse where
  page_number : Nat
  content : String
  deriving DecidableEq

/-- Embedding of lines 95-97 of parallex.py: flatten the gathered page groups
and sort ascending by page_number; the result is the pages field of the
returned ParallexCallableOutput. -/
def aggregatePages (page_groups : List (List PageResponse)) : List PageResponse :=
  List.insertionSort (fun a b => a.page_number ≤ b.page_number) page_groups.flatten

instance : IsTotal PageResponse fun a b => a.page_number ≤ b.page_number :=
  ⟨fun a b => Nat.le_total a.page_number b.page_number⟩

instance : IsTrans PageResponse fun a b => a.page_number ≤ b.page_number :=
  ⟨fun _ _ _ hab hbc => le_trans hab hbc⟩

/-- C2: when the flattened per-job page groups carry exactly the page numbers
1..N (each exactly once), aggregation returns a permutation of exactly those
pages, none dropped and none duplicated, whose page numbers read
1, 2, ..., N in ascending order. -/
theorem aggregate_sorts_unique_pages (page_groups : List (List PageResponse))
    (N : Nat)
    (hperm : List.Perm (page_groups.flatten.map PageResponse.page_number)
      (List.range' 1 N)) :
    List.Perm (aggregatePages page_groups) page_groups.flatten ∧
      (aggregatePages page_groups).map PageResponse.page_number
        = List.range' 1 N := by
  refine ⟨List.perm_insertionSort _ _, ?_⟩
  have hperm2 : List.Perm
      ((aggregatePages page_groups).map PageResponse.page_number)
      (List.range' 1 N) :=
    ((List.perm_insertionSort _ _).map _).trans hperm
  have hs1 : List.Sorted (· ≤ ·)
      ((aggregatePages page_groups).map PageResponse.page_number) := by
    have hs := List.sorted_insertionSort
      (fun a b => a.page_number ≤ b.page_number) page_groups.flatten
    exact (List.pairwise_map).mpr hs
  have hs2 : List.Sorted (· ≤ ·) (List.range' 1 N) :=
    (List.pairwise_lt_range' 1 N).imp fun h => le_of_lt h
  exact List.eq_of_perm_of_sorted hperm2 hs1 hs2

theorem aggregate_sorts_unique_pages_witness :
    List.Perm (aggregatePages [[⟨2, "b"⟩], [⟨1, "a"⟩, ⟨3, "c"⟩]])
        ([[⟨2, "b"⟩], [⟨1, "a"⟩, ⟨3, "c"⟩]] : List (List PageResponse)).flatten ∧
      (aggregatePages [[⟨2, "b"⟩], [⟨1, "a"⟩, ⟨3, "c"⟩]]).map
          PageResponse.page_number = List.range' 1 3 :=
  aggregate_sorts_unique_pages [[⟨2, "b"⟩], [⟨1, "a"⟩, ⟨3, "c"⟩]] 3 (by decide)

/-! ## Bounded-concurrency fan-out and gather (src/parallex/parallex.py)

Both fan-out phases of _execute build a task list with asyncio.create_task in
input order and collect it with `await asyncio.gather(*tasks)`. gather keeps
one result slot per task, indexed by submission position; a task fills its
own slot when it completes, in an arbitrary completion order, and the awaited
value is the slot contents read out in submission order. -/

/-- Result slots of gather after the tasks listed in `order` (completion
order, earliest first) have completed: each completed task `i` has written
`results i` into slot `i`; slots of still-running tasks are empty. -/
def gatherSlots (n : Nat) (results : Fin n → α) (order : List (Fin n)) :
    Fin n → Option α :=
  order.foldl (fun slots i => Function.update slots i (some (results i)))
    fun _ => none

/-- Embedding of the value of `await asyncio.gather(*tasks)`: the slot
contents read out in task-submission order. -/
def gatherResults (n : Nat) (results : Fin n → α) (order : List (Fin n)) :
    List (Option α) :=
  List.ofFn (gatherSlots n results order)

theorem gatherSlots_apply (n : Nat) (results : Fin n → α) :
    ∀ (order : List (Fin n)) (slots : Fin n → Option α) (i : Fin n),
      order.foldl (fun s j => Function.update s j (some (results j))) slots i
        = if i ∈ order then some (results i) else slots i := by
  intro order
  induction order with
  | nil => intro slots i; simp
  | cons j rest ih =>
      intro slots i
      rw [List.foldl_cons, ih]
      by_cases hmem : i ∈ rest
      · simp [hmem]
      · by_cases hij : i = j
        · subst hij
          simp [hmem, Function.update_same]
        · simp [hmem, hij, Function.update_noteq hij]

theorem gatherResults_eq_map {α β : Type} (l : List α) (f : α → β)
    (order : List (Fin l.length)) (hcover : ∀ i, i ∈ order) :
    gatherResults l.length (fun i => f (l.get i)) order
      = l.map fun a => some (f a) := by
  have hfun : gatherSlots l.length (fun i => f (l.get i)) order
      = fun i => some (f (l.get i)) := by
    funext i
    unfold gatherSlots
    rw [gatherSlots_apply]
    simp [hcover i]
  unfold gatherResults
  rw [hfun]
  conv_rhs => rw [← List.ofFn_get l, List.map_ofFn]
  rfl

/-- C3: under the gather model, the collected results of a fan-out phase are
in task-submission (input) order whatever the completion order: the submit
phase yields the created jobs in batch-file order, and the wait phase yields
the page groups in job order. -/
theorem gather_returns_submission_order {α β γ : Type}
    (batch_files : List α) (createBatch : α → β) (waitAndPages : β → γ)
    (o1 : List (Fin batch_files.length)) (h1 : ∀ i, i ∈ o1)
    (o2 : List (Fin (batch_files.map createBatch).length)) (h2 : ∀ i, i ∈ o2) :
    gatherResults batch_files.length
        (fun i => createBatch (batch_files.get i)) o1
      = batch_files.map (fun f => some (createBatch f)) ∧
    gatherResults (batch_files.map createBatch).length
        (fun i => waitAndPages ((batch_files.map createBatch).get i)) o2
      = (batch_files.map createBatch).map fun b => some (waitAndPages b) :=
  ⟨gatherResults_eq_map batch_files createBatch o1 h1,
   gatherResults_eq_map (batch_files.map createBatch) waitAndPages o2 h2⟩

theorem gather_returns_submission_order_witness :
    gatherResults ([10, 20] : List Nat).length
        (fun i => ([10, 20] : List Nat).get i + 1)
        [⟨1, by decide⟩, ⟨0, by decide⟩]
      = [some 11, some 21] ∧
    gatherResults (([10, 20] : List Nat).map fun x => x + 1).length
        (fun i => (([10, 20] : List Nat).map fun x => x + 1).get i * 2)
        [⟨1, by decide⟩, ⟨0, by decide⟩]
      = [some 22, some 42] := by
  have h := gather_returns_submission_order ([10, 20] : List Nat)
    (fun x => x + 1) (fun b => b * 2)
    [⟨1, by decide⟩, ⟨0, by decide⟩] (by decide)
    [⟨1, by decide⟩, ⟨0, by decide⟩] (by decide)
  exact ⟨h.1.trans (by decide), h.2.trans (by decide)⟩

/-! ## Semaphore-bounded phases (src/parallex/parallex.py, _execute,
_create_batch_jobs, _wait_and_create_pages)

Each fan-out phase builds its own `asyncio.Semaphore(concurrency)`; every
task's body is wrapped in `async with semaphore`. We model one phase as a
transition system: a task acquires a permit to enter its body and releases it
when the body finishes; the interleaving of acquisitions and releases is
arbitrary. -/

/-- State of one fan-out phase: permits left in the semaphore, tasks inside
their `async with` body, tasks created but not yet admitted, tasks finished. -/
structure SchedState where
  avail : Nat
  inflight : Nat
  pending : Nat
  done : Nat
  deriving DecidableEq

/-- Transition relation of one phase: `acquire` models a pending task passing
`async with semaphore` (possible only when a permit is available), `release`
models an in-flight task finishing its body and returning its permit. -/
inductive SchedStep : SchedState → SchedState → Prop
  | acquire (a i p d : Nat) : SchedStep ⟨a + 1, i, p + 1, d⟩ ⟨a, i + 1, p, d⟩
  | release (a i p d : Nat) : SchedStep ⟨a, i + 1, p, d⟩ ⟨a + 1, i, p, d + 1⟩

/-- Phase start: `asyncio.Semaphore(limit)` holds `limit` permits, all `n`
tasks are created, none has started or finished. -/
def initState (limit n : Nat) : SchedState := ⟨limit, 0, n, 0⟩

/-- Reflexive-transitive closure of the phase steps. -/
inductive SchedReach (s0 : SchedState) : SchedState → Prop
  | refl : SchedReach s0 s0
  | tail {s t : SchedState} : SchedReach s0 s → SchedStep s t → SchedReach s0 t

theorem schedReach_avail_add_inflight (K n : Nat) (s : SchedState)
    (h : SchedReach (initState K n) s) : s.avail + s.inflight = K := by
  induction h with
  | refl => simp [initState]
  | tail hr hstep ih =>
      cases hstep with
      | acquire a i p d => simp_all; omega
      | release a i p d => simp_all; omega

/-- C7: with concurrency limit K at least 1, no reachable state of either
fan-out phase (submitting jobs over n1 batch files, waiting on n2 jobs) ever
has more than K tasks inside their semaphore-guarded body; each phase has its
own semaphore of K permits and enforces the bound independently. -/
theorem bounded_inflight_both_phases (K n1 n2 : Nat) (_hK : 1 ≤ K)
    (s1 s2 : SchedState)
    (h1 : SchedReach (initState K n1) s1)
    (h2 : SchedReach (initState K n2) s2) :
    s1.inflight ≤ K ∧ s2.inflight ≤ K := by
  have e1 := schedReach_avail_add_inflight K n1 s1 h1
  have e2 := schedReach_avail_add_inflight K n2 s2 h2
  omega

theorem bounded_inflight_both_phases_witness :
    (⟨0, 1, 0, 0⟩ : SchedState).inflight ≤ 1 ∧ (initState 1 2).inflight ≤ 1 :=
  bounded_inflight_both_phases 1 1 2 (by decide) ⟨0, 1, 0, 0⟩ (initState 1 2)
    (SchedReach.tail SchedReach.refl (SchedStep.acquire 0 0 0 0))
    SchedReach.refl

/-- Embedding of the `asyncio.Semaphore(value)` constructor: it raises
ValueError for a negative initial value and otherwise just stores the value;
in particular it accepts 0 without complaint. -/
def semaphoreInit (value : Int) : Except String Nat :=
  if value < 0 then
    Except.error "ValueError: Semaphore initial value must be >= 0"
  else
    Except.ok value.toNat

/-- Decision procedure for whether any phase step can fire from `s`. -/
def stepEnabled (s : SchedState) : Bool :=
  (0 < s.avail && 0 < s.pending) || 0 < s.inflight

theorem stepEnabled_iff (s : SchedState) :
    stepEnabled s = true ↔ ∃ t, SchedStep s t := by
  obtain ⟨a, i, p, d⟩ := s
  constructor
  · intro h
    simp [stepEnabled] at h
    rcases h with ⟨ha, hp⟩ | hi
    · cases a with
      | zero => omega
      | succ a2 =>
          cases p with
          | zero => omega
          | succ p2 => exact ⟨_, SchedStep.acquire a2 i p2 d⟩
    · cases i with
      | zero => omega
      | succ i2 => exact ⟨_, SchedStep.release a i2 p d⟩
  · rintro ⟨t, hstep⟩
    cases hstep with
    | acquire a2 i2 p2 d2 => simp [stepEnabled]
    | release a2 i2 p2 d2 => simp [stepEnabled]

theorem schedStep_needs_permit_or_inflight (s t : SchedState)
    (h : SchedStep s t) : 0 < s.avail + s.inflight := by
  cases h with
  | acquire a i p d => simp
  | release a i p d => simp

theorem schedReach_zero_limit (n : Nat) (s : SchedState)
    (h : SchedReach (initState 0 n) s) : s = initState 0 n := by
  induction h with
  | refl => rfl
  | tail hr hstep ih =>
      exfalso
      rename_i s2 t2
      have hsum := schedReach_avail_add_inflight 0 n s2 hr
      have hpos := schedStep_needs_permit_or_inflight s2 t2 hstep
      omega

/-- C8 counterexample: constructing the semaphore with limit 0 raises no
error at all, so no configuration error is surfaced; yet with one batch file
pending no phase step can ever fire from the initial state: the run is
deadlocked rather than failed. -/
theorem zero_limit_no_error_but_stuck :
    semaphoreInit 0 = Except.ok 0 ∧ stepEnabled (initState 0 1) = false ∧
      (initState 0 1).pending = 1 := ⟨rfl, rfl, rfl⟩

/-- C8 amended: a negative concurrency limit fails at semaphore construction
with ValueError (a generic error, which the entry point then swallows after
logging); a zero limit raises nothing and instead deadlocks the phase: the
initial state is the only reachable one, so with at least one batch file no
task ever starts and the phase never completes. -/
theorem invalid_limit_fails_or_deadlocks (v : Int) (hv : v < 0) (n : Nat)
    (hn : 0 < n) (s : SchedState) (hs : SchedReach (initState 0 n) s) :
    semaphoreInit v
        = Except.error "ValueError: Semaphore initial value must be >= 0" ∧
      semaphoreInit 0 = Except.ok 0 ∧ s = initState 0 n ∧ s.done < n := by
  refine ⟨by simp [semaphoreInit, hv], rfl, schedReach_zero_limit n s hs, ?_⟩
  have heq := schedReach_zero_limit n s hs
  subst heq
  simpa [initState] using hn

theorem invalid_limit_fails_or_deadlocks_witness :
    semaphoreInit (-1)
        = Except.error "ValueError: Semaphore initial value must be >= 0" ∧
      semaphoreInit 0 = Except.ok 0 ∧ initState 0 1 = initState 0 1 ∧
      (initState 0 1).done < 1 :=
  invalid_limit_fails_or_deadlocks (-1) (by decide) 1 (by decide)
    (initState 0 1) SchedReach.refl

/-! ## Teardown cleanup (src/parallex/parallex.py, parallex, lines 32-46)

The entry point wraps `_execute` in `try/except/finally`. The except block
logs the exception and swallows it (there is no re-raise, so the function
then returns None). The finally block iterates over
`remote_file_handler.created_files` and awaits `delete_file` on each, with no
try/except of its own: an exception from one delete call aborts the loop and
propagates out of the finally block, replacing the function's outcome. The
external `delete_file` call is embedded as an arbitrary fallible function. -/

/-- Embedding of the finally-block loop: returns the files for which a delete
call was issued, in order, together with the first exception raised in the
loop if any (such an exception stops the loop at that file). -/
def cleanupLoop (delete : String → Except String Unit) :
    List String → List String × Option String
  | [] => ([], none)
  | f :: rest =>
    match delete f with
    | Except.ok _ =>
        let r := cleanupLoop delete rest
        (f :: r.1, r.2)
    | Except.error e => ([f], some e)

/-- Files for which a deletion attempt is made during teardown. -/
def attemptedDeletions (delete : String → Except String Unit)
    (created : List String) : List String :=
  (cleanupLoop delete created).1

/-- Outcome of `parallex` when the finally block raises nothing: a successful
body value is returned; a body exception was logged and swallowed by the
except block, so the function returns None. -/
def swallowedOutcome {α : Type} (body : Except String α) :
    Except String (Option α) :=
  match body with
  | Except.ok a => Except.ok (some a)
  | Except.error _ => Except.ok none

/-- Embedding of the whole `try/except/finally` of `parallex`: `body` is the
result of `_execute` (a value or a raised exception); the finally block runs
the deletion loop and an exception raised there replaces the outcome
entirely. -/
def parallexOutcome {α : Type} (body : Except String α)
    (delete : String → Except String Unit) (created : List String) :
    Except String (Option α) :=
  match (cleanupLoop delete created).2 with
  | some e => Except.error e
  | none => swallowedOutcome body

/-- Delete stub for the C1 scenario: deletion of file-1 fails with a
transport error, all other deletions succeed. -/
def cexDelete : String → Except String Unit := fun f =>
  if f = "file-1" then Except.error "TransportError" else Except.ok ()

/-- C1 counterexample: with tracked files [file-1, file-2] and a delete call
that fails on file-1, a delete attempt is made only for file-1 (file-2 is
skipped), and although the primary pipeline result was a success, the overall
outcome becomes the cleanup error: a cleanup failure does escalate and does
change the result. -/
theorem cleanup_failure_escalates :
    attemptedDeletions cexDelete ["file-1", "file-2"] = ["file-1"] ∧
      parallexOutcome (Except.ok 42) cexDelete ["file-1", "file-2"]
        = Except.error "TransportError" := ⟨rfl, rfl⟩

theorem cleanupLoop_first_failure (delete : String → Except String Unit)
    (post : List String) (bad e : String)
    (hbad : delete bad = Except.error e) :
    ∀ pre : List String, (∀ f ∈ pre, delete f = Except.ok ()) →
      cleanupLoop delete (pre ++ bad :: post) = (pre ++ [bad], some e) := by
  intro pre
  induction pre with
  | nil =>
      intro _
      simp [cleanupLoop, hbad]
  | cons f rest ih =>
      intro hpre
      have hf : delete f = Except.ok () := hpre f (by simp)
      have ih2 := ih fun g hg => hpre g (by simp [hg])
      simp [cleanupLoop, hf, ih2]

theorem cleanupLoop_all_ok (delete : String → Except String Unit) :
    ∀ created : List String, (∀ f ∈ created, delete f = Except.ok ()) →
      cleanupLoop delete created = (created, none) := by
  intro created
  induction created with
  | nil => intro _; rfl
  | cons f rest ih =>
      intro hok
      have hf : delete f = Except.ok () := hok f (by simp)
      have ih2 := ih fun g hg => hok g (by simp [hg])
      simp [cleanupLoop, hf, ih2]

/-- C1 amended: at teardown, deletion is attempted for each tracked handle in
order only up to and including the first handle whose deletion fails: the
handles after it get no deletion attempt, and the cleanup exception replaces
the pipeline's primary outcome, whatever it was. (Only when every deletion
succeeds is every tracked handle attempted; even then a primary internal
exception is not re-raised but swallowed into a None return.) -/
theorem cleanup_stops_at_first_failure {α : Type} (body : Except String α)
    (delete : String → Except String Unit) (pre post : List String)
    (bad e : String)
    (hpre : ∀ f ∈ pre, delete f = Except.ok ())
    (hbad : delete bad = Except.error e) :
    attemptedDeletions delete (pre ++ bad :: post) = pre ++ [bad] ∧
      parallexOutcome body delete (pre ++ bad :: post) = Except.error e := by
  have key := cleanupLoop_first_failure delete post bad e hbad pre hpre
  exact ⟨by simp [attemptedDeletions, key], by simp [parallexOutcome, key]⟩

theorem cleanup_stops_at_first_failure_witness :
    attemptedDeletions cexDelete (["file-0"] ++ "file-1" :: ["file-2"])
        = ["file-0"] ++ ["file-1"] ∧
      parallexOutcome (Except.ok 7) cexDelete
          (["file-0"] ++ "file-1" :: ["file-2"])
        = Except.error "TransportError" :=
  cleanup_stops_at_first_failure (Except.ok 7) cexDelete ["file-0"] ["file-2"]
    "file-1" "TransportError"
    (by
      intro f hf
      have hf0 : f = "file-0" := by simpa using hf
      subst hf0
      rfl)
    rfl

/-! ## Request envelope (src/parallex/ai/uploader.py, _jsonl_format) -/

/-- Body part of one serialized request line. -/
structure JsonlBody where
  model : Option String
  prompt_text : String
  image_url : String
  max_tokens : Nat
  deriving DecidableEq

/-- One serialized request line of an upload unit. -/
structure JsonlRequest where
  custom_id : String
  method : String
  url : String
  body : JsonlBody
  deriving DecidableEq

/-- Embedding of `_jsonl_format`; `env` is the ambient process environment as
read by `os.getenv`. The model field comes from
`os.getenv("AZURE_OPENAI_API_DEPLOYMENT")`; the model argument of the entry
point is not a parameter of this function at all. -/
def jsonlFormat (env : String → Option String)
    (prompt_custom_id encoded_image prompt_text : String) : JsonlRequest :=
  { custom_id := prompt_custom_id
    method := "POST"
    url := "/chat/completions"
    body :=
      { model := env "AZURE_OPENAI_API_DEPLOYMENT"
        prompt_text := prompt_text
        image_url := "data:image/png;base64," ++ encoded_image
        max_tokens := 2000 } }

/-- Process environment whose deployment variable is gpt-A. -/
def envA : String → Option String := fun k =>
  if k = "AZURE_OPENAI_API_DEPLOYMENT" then some "gpt-A" else none

/-- Process environment whose deployment variable is gpt-B. -/
def envB : String → Option String := fun k =>
  if k = "AZURE_OPENAI_API_DEPLOYMENT" then some "gpt-B" else none

/-- C9 counterexample: identical packing arguments under two process
environments yield different serialized envelopes, and the model field equals
the environment variable rather than any value threaded from the entry
point. -/
theorem model_field_depends_on_environment :
    jsonlFormat envA "cid" "img" "prompt" ≠ jsonlFormat envB "cid" "img" "prompt"
      ∧ (jsonlFormat envA "cid" "img" "prompt").body.model = some "gpt-A"
      ∧ (jsonlFormat envB "cid" "img" "prompt").body.model = some "gpt-B" := by
  refine ⟨fun h => ?_, rfl, rfl⟩
  have hm := congrArg (fun r => r.body.model) h
  simp [jsonlFormat, envA, envB] at hm

/-- C9 amended: the model field of every serialized request line is read from
the AZURE_OPENAI_API_DEPLOYMENT process environment variable inside the
packing step, not threaded from the entry-point model argument; environments
that disagree on that variable give different envelopes for identical
arguments, so the serialized output is not determined by the call arguments
alone. -/
theorem model_field_is_ambient (env env2 : String → Option String)
    (cid img prompt : String)
    (hne : env2 "AZURE_OPENAI_API_DEPLOYMENT" ≠ env "AZURE_OPENAI_API_DEPLOYMENT") :
    (jsonlFormat env cid img prompt).body.model
        = env "AZURE_OPENAI_API_DEPLOYMENT" ∧
      jsonlFormat env2 cid img prompt ≠ jsonlFormat env cid img prompt := by
  refine ⟨rfl, fun h => hne ?_⟩
  exact congrArg (fun r => r.body.model) h

theorem model_field_is_ambient_witness :
    (jsonlFormat envA "cid" "img" "prompt").body.model
        = envA "AZURE_OPENAI_API_DEPLOYMENT" ∧
      jsonlFormat envB "cid" "img" "prompt" ≠ jsonlFormat envA "cid" "img" "prompt" :=
  model_field_is_ambient envA envB "cid" "img" "prompt" (by decide)
